import Mathlib

/-!
Shallow embedding of `src/bot.py` (Telegram job-posting bot).

Strings are modelled as `List Char`.  Python `None` is modelled by `Option`.
Python exceptions are modelled by `Except PyErr`.  The upstream HTTP request of
`fetch_company_jobs` is modelled by passing the outcome of
`requests.get(...).json()` as an explicit argument (`FetchResult`), and the
Telegram send of `post_job` by a boolean oracle `send : Job → Bool`
(`true` = the coroutine returns, `false` = it raises).
-/

namespace Bot

-- ======== Python string primitives used by bot.py ======== --

/-- Whitespace characters recognised by Python `str.split()` / `str.strip()`
(space, tab, newline, carriage return, vertical tab, form feed; ASCII core). -/
def isPySpace (c : Char) : Bool :=
  c.toNat == 32 || c.toNat == 9 || c.toNat == 10 || c.toNat == 13 ||
  c.toNat == 11 || c.toNat == 12

/-- ASCII lower-casing of one character, as Python `str.lower()` acts on
the ASCII range (the only range the bot's keywords use). -/
def lowerChar (c : Char) : Char :=
  if 65 ≤ c.toNat ∧ c.toNat ≤ 90 then Char.ofNat (c.toNat + 32) else c

/-- Python `str.lower()`. -/
def pyLower (s : List Char) : List Char := s.map lowerChar

/-- Does `needle` occur at the start of `hay`?  (Python `str.startswith`.) -/
def isPre : List Char → List Char → Bool
  | [], _ => true
  | _ :: _, [] => false
  | a :: as, b :: bs => a == b && isPre as bs

/-- Python substring test `needle in hay`. -/
def containsSub (needle : List Char) : List Char → Bool
  | [] => needle.isEmpty
  | c :: rest => isPre needle (c :: rest) || containsSub needle rest

/-- Python `s.split()[0]` wrapped in the surrounding `try`: `none` models the
`IndexError` raised when `s` is all whitespace (caught by `except`). -/
def firstTokenWs : List Char → Option (List Char)
  | [] => none
  | c :: rest =>
    if isPySpace c then firstTokenWs rest
    else some (c :: rest.takeWhile (fun x => !isPySpace x))

/-- ASCII decimal digit test. -/
def isDigitCh (c : Char) : Bool := 48 ≤ c.toNat && c.toNat ≤ 57

/-- Value of a non-empty all-digit string, accumulator style. -/
def digitsValAux (acc : Nat) : List Char → Option Nat
  | [] => some acc
  | c :: rest =>
    if isDigitCh c then digitsValAux (acc * 10 + (c.toNat - 48)) rest else none

/-- Value of a non-empty all-digit string (`none` on empty or non-digit). -/
def digitsVal : List Char → Option Nat
  | [] => none
  | c :: rest => digitsValAux 0 (c :: rest)

/-- Python `int(s)` on a whitespace-free token: optional sign followed by a
non-empty digit string; `none` models the `ValueError` caught by the caller. -/
def pyInt? : List Char → Option Int
  | [] => none
  | c :: rest =>
    if c.toNat == 43 then
      match digitsVal rest with
      | none => none
      | some n => some (n : Int)
    else if c.toNat == 45 then
      match digitsVal rest with
      | none => none
      | some n => some (-(n : Int))
    else
      match digitsVal (c :: rest) with
      | none => none
      | some n => some (n : Int)

/-- Python `str.strip()`: drop leading and trailing whitespace. -/
def pyStrip (s : List Char) : List Char :=
  ((s.dropWhile isPySpace).reverse.dropWhile isPySpace).reverse

/-- Iterating over an open Python text file yields its lines, each keeping its
trailing newline; no empty final line is produced for a trailing newline. -/
def pyLines : List Char → List (List Char)
  | [] => []
  | c :: rest =>
    if c.toNat == 10 then [c] :: pyLines rest
    else
      match pyLines rest with
      | [] => [[c]]
      | l :: ls => (c :: l) :: ls

/-- Python `s.split(sep)` for a one-character separator (keeps empty parts). -/
def pySplitChar (sep : Char) : List Char → List (List Char)
  | [] => [[]]
  | c :: rest =>
    if c == sep then [] :: pySplitChar sep rest
    else
      match pySplitChar sep rest with
      | [] => [[c]]
      | l :: ls => (c :: l) :: ls

/-- Python `s.replace(needle, "")`, fuel-indexed so the recursion is
structural (each step consumes at least one character, so `s.length` fuel
is always enough). -/
def pyReplaceDelFuel (needle : List Char) : Nat → List Char → List Char
  | 0, l => l
  | _ + 1, [] => []
  | fuel + 1, c :: rest =>
    if isPre needle (c :: rest) ∧ needle ≠ [] then
      pyReplaceDelFuel needle fuel (rest.drop (needle.length - 1))
    else
      c :: pyReplaceDelFuel needle fuel rest

/-- Python `s.replace(needle, "")`: delete every occurrence of `needle`. -/
def pyReplaceDel (needle s : List Char) : List Char :=
  pyReplaceDelFuel needle s.length s

/-- Rendering a value in a Python f-string: a missing value prints as "None". -/
def pyFStr (v : Option (List Char)) : List Char :=
  match v with
  | none => "None".data
  | some s => s

-- ======== bot.py: load_posted_jobs (lines 43-48) ======== --

/-- `load_posted_jobs` (bot.py lines 43-48).  The file system is passed in:
`none` models a missing file (`FileNotFoundError`, caught), `some content`
the raw text of `posted_jobs.txt`.  The Python `set` is modelled as a
duplicate-free list; membership is the set's observable behaviour. -/
def load_posted_jobs (file : Option (List Char)) : List (List Char) :=
  match file with
  | none => []
  | some content => ((pyLines content).map pyStrip).dedup

-- ======== bot.py: load_companies (lines 54-102) ======== --

/-- One CSV row as `csv.DictReader` yields it: the "Company Name" cell and the
five ATS url cells in the order of `url_columns` (`none` = missing cell). -/
structure CsvRow where
  name : List Char
  urls : List (Option (List Char))
deriving DecidableEq

structure Company where
  company : List Char
  sites : List (List Char)
deriving DecidableEq

/-- Sites contributed by one url cell (bot.py lines 80-91): skip falsy cells,
split on "|", strip each part, keep non-empty parts, delete protocols. -/
def sitesOfCell (cell : Option (List Char)) : List (List Char) :=
  match cell with
  | none => []
  | some v =>
    if v.isEmpty then []
    else
      (((pySplitChar '|' v).map pyStrip).filter (fun p => !p.isEmpty)).map
        (fun p => pyReplaceDel "http://".data (pyReplaceDel "https://".data p))

/-- `load_companies` (bot.py lines 54-102), applied to the parsed rows:
rows with an empty (stripped) company name or no sites are skipped. -/
def load_companies (rows : List CsvRow) : List Company :=
  rows.filterMap (fun row =>
    let company := pyStrip row.name
    if company.isEmpty then none
    else
      let sites := row.urls.flatMap sitesOfCell
      if sites.isEmpty then none else some ⟨company, sites⟩)

-- ======== bot.py: is_within_24_hours (lines 104-123) ======== --

/-- The branch chain of `is_within_24_hours` (bot.py lines 110-123) over the
already lower-cased phrase `p`. -/
def iw24_core (p : List Char) : Bool :=
  if containsSub "minute".data p then true
  else if containsSub "hour".data p then
    match firstTokenWs p with
    | none => false
    | some tok =>
      match pyInt? tok with
      | none => false
      | some h => decide (h ≤ 24)
  else if containsSub "day".data p then isPre "1 day".data p
  else false

/-- `is_within_24_hours` (bot.py lines 104-123).  The argument is
`j.get("detected_extensions", {}).get("posted_at")`, hence `Option`;
`none` and the empty string are both falsy (line 105).  Line 108 lowers
the phrase; the rest is `iw24_core`. -/
def is_within_24_hours (posted_at : Option (List Char)) : Bool :=
  match posted_at with
  | none => false
  | some s => if s.isEmpty then false else iw24_core (pyLower s)

-- ======== bot.py: fetch_company_jobs (lines 127-164) ======== --

/-- Python exceptions that can escape the modelled fragment. -/
inductive PyErr where
  | keyError : PyErr
deriving DecidableEq

deriving instance DecidableEq for Except

/-- One raw listing of `res["jobs_results"]`, holding exactly the fields
bot.py reads.  `title = none` models a dict without the "title" key
(read with `j["title"]`, which raises); every other field is read with
`.get` and a missing key is `none`.  `apply_options` holds, per entry,
the value of its "link" key. -/
structure RawListing where
  job_id : Option (List Char)
  title : Option (List Char)
  location : Option (List Char)
  description : Option (List Char)
  posted_at : Option (List Char)
  apply_options : List (Option (List Char))
deriving DecidableEq

/-- Outcome of `requests.get(url, params, timeout=20).json()`:
`fail` models any raised exception (network/HTTP error, timeout, non-JSON
body), `ok` a decoded response given by its "jobs_results" list. -/
inductive FetchResult where
  | fail : FetchResult
  | ok : List RawListing → FetchResult
deriving DecidableEq

/-- The normalized job dict built at bot.py lines 153-162. -/
structure Job where
  id : List Char
  title : List Char
  company : List Char
  location : List Char
  summary : List Char
  url : Option (List Char)
  source : List Char
  posted : Option (List Char)
deriving DecidableEq

/-- The dict literal of bot.py lines 153-162, for a listing `j` whose
"title" is `t` and whose first apply option is `o`.
`j.get("job_id") or f"..."` takes the fallback when job_id is missing
or empty (falsy). -/
def mkJobRec (company site : List Char) (j : RawListing) (t : List Char)
    (o : Option (List Char)) : Job :=
  { id := match j.job_id with
          | some v => if v.isEmpty then company ++ "-".data ++ t else v
          | none => company ++ "-".data ++ t
    title := t
    company := company
    location := j.location.getD "United States".data
    summary := j.description.getD []
    url := o
    source := site
    posted := j.posted_at }

/-- The `for j in res.get("jobs_results", [])` loop of bot.py lines 144-162:
skip listings outside the recency window or without apply options; reading
`j["title"]` on a listing without a title raises `KeyError`, which escapes
the loop (the surrounding `try` only covers the HTTP request). -/
def fetchLoop (company site : List Char) : List RawListing → Except PyErr (List Job)
  | [] => .ok []
  | j :: rest =>
    if !is_within_24_hours j.posted_at then fetchLoop company site rest
    else
      match j.apply_options with
      | [] => fetchLoop company site rest
      | o :: _ =>
        match j.title with
        | none => .error .keyError
        | some t =>
          match fetchLoop company site rest with
          | .error e => .error e
          | .ok tail => .ok (mkJobRec company site j t o :: tail)

/-- `fetch_company_jobs` (bot.py lines 127-164), with the outcome of the
HTTP request passed in.  A failed request returns the empty list
(lines 137-140); a decoded response is folded by `fetchLoop`. -/
def fetch_company_jobs (company site : List Char) (res : FetchResult) :
    Except PyErr (List Job) :=
  match res with
  | .fail => .ok []
  | .ok listings => fetchLoop company site listings

/-- `fetch_company_jobs` never raises, as a Bool. -/
def isOkE (r : Except PyErr (List Job)) : Bool :=
  match r with
  | .ok _ => true
  | .error _ => false

-- ======== bot.py: post_job (lines 168-184) ======== --

/-- The arguments of `bot.send_message` that the spec talks about. -/
structure SendCall where
  text : List Char
  parse_mode : List Char
  disable_web_page_preview : Bool
deriving DecidableEq

/-- The message template of bot.py lines 169-177.  `job['summary'][:700]`
is `take 700`; `posted` and `url` go through f-string rendering. -/
def renderMsg (j : Job) : List Char :=
  "📌 *".data ++ j.title ++ "*\n\n🏢 ".data ++ j.company ++
  "\n📍 ".data ++ j.location ++ "\n🌐 Source: ".data ++ j.source ++
  "\n⏱ Posted: ".data ++ pyFStr j.posted ++ "\n\n📝 ".data ++
  j.summary.take 700 ++ "\n\n🔗 [Apply Here](".data ++ pyFStr j.url ++ ")".data

/-- Everything of `renderMsg` that precedes the truncated summary. -/
def msgBefore (j : Job) : List Char :=
  "📌 *".data ++ j.title ++ "*\n\n🏢 ".data ++ j.company ++
  "\n📍 ".data ++ j.location ++ "\n🌐 Source: ".data ++ j.source ++
  "\n⏱ Posted: ".data ++ pyFStr j.posted ++ "\n\n📝 ".data

/-- Everything of `renderMsg` that follows the truncated summary. -/
def msgAfter (j : Job) : List Char :=
  "\n\n🔗 [Apply Here](".data ++ pyFStr j.url ++ ")".data

/-- `post_job` (bot.py lines 168-184): renders the message and performs the
send.  It returns the issued send call together with the job dict as it
stands after the call (the code never writes to the dict). -/
def post_job (j : Job) : SendCall × Job :=
  (⟨renderMsg j, "Markdown".data, true⟩, j)

/-- The job dict of bot.py lines 153-162 viewed as a Python dict:
its key/value pairs in literal order (values are strings or None). -/
def jobDict (j : Job) : List (List Char × Option (List Char)) :=
  [("id".data, some j.id), ("title".data, some j.title),
   ("company".data, some j.company), ("location".data, some j.location),
   ("summary".data, some j.summary), ("url".data, j.url),
   ("source".data, some j.source), ("posted".data, j.posted)]

/-- Python dict lookup on the assoc-list view (`none` = key absent). -/
def dictGet (k : List Char) : List (List Char × Option (List Char)) →
    Option (Option (List Char))
  | [] => none
  | (k2, v) :: rest => if k2 = k then some v else dictGet k rest

-- ======== bot.py: check_and_post_jobs (lines 188-209) ======== --

/-- The candidate collection of bot.py lines 195-200 for one company's
sites: fetch each site, keep jobs whose id is not in the loaded set.
An exception from a fetch escapes the whole loop. -/
def collectSites (posted : List (List Char))
    (resp : List Char → List Char → FetchResult) (company : List Char) :
    List (List Char) → Except PyErr (List Job)
  | [] => .ok []
  | s :: ss =>
    match fetch_company_jobs company s (resp company s) with
    | .error e => .error e
    | .ok jobs =>
      match collectSites posted resp company ss with
      | .error e => .error e
      | .ok rest => .ok (jobs.filter (fun j => decide (j.id ∉ posted)) ++ rest)

/-- The candidate collection of bot.py lines 195-200 over all companies. -/
def collectNew (posted : List (List Char))
    (resp : List Char → List Char → FetchResult) :
    List Company → Except PyErr (List Job)
  | [] => .ok []
  | c :: cs =>
    match collectSites posted resp c.company c.sites with
    | .error e => .error e
    | .ok jc =>
      match collectNew posted resp cs with
      | .error e => .error e
      | .ok rest => .ok (jc ++ rest)

/-- The delivery loop of bot.py lines 206-209: for each job, `post_job`
then `save_posted_job`.  There is no `try` around the body, so a failed
send raises and stops the loop.  Returns (appended ids, delivered jobs,
aborted?). -/
def deliverLoop (send : Job → Bool) :
    List Job → List (List Char) × List Job × Bool
  | [] => ([], [], false)
  | j :: rest =>
    if send j then
      match deliverLoop send rest with
      | (ids, del, ab) => (j.id :: ids, j :: del, ab)
    else ([], [], true)

/-- Observable outcome of one polling cycle: the ids in the dedup store
after the cycle (loaded set plus appended ids), the delivered jobs in
order, and whether the cycle was aborted by an exception. -/
structure CycleOut where
  committed : List (List Char)
  delivered : List Job
  aborted : Bool
deriving DecidableEq

/-- `check_and_post_jobs` (bot.py lines 188-209), after the two loads:
`posted` is the loaded dedup set, `companies` the loaded company list,
`resp` the upstream response per (company, site), `send` the Telegram
send outcome per job. -/
def check_and_post_jobs (send : Job → Bool) (posted : List (List Char))
    (companies : List Company)
    (resp : List Char → List Char → FetchResult) : CycleOut :=
  match collectNew posted resp companies with
  | .error _ => ⟨posted, [], true⟩
  | .ok newJobs =>
    if newJobs.isEmpty then ⟨posted, [], false⟩
    else
      match deliverLoop send newJobs with
      | (ids, del, ab) => ⟨posted ++ ids, del, ab⟩

-- ======== Concrete instances used by counterexamples and witnesses ======== --

-- C1: one company, two sites, both returning a listing with the SAME job_id
-- "X"; the send succeeds for the a.com record and fails for the b.com one.
def companiesX : List Company := [⟨"Acme".data, ["a.com".data, "b.com".data]⟩]

def listXa : RawListing :=
  { job_id := some "X".data, title := some "T".data, location := none,
    description := none, posted_at := some "1 hour ago".data,
    apply_options := [some "u1".data] }

def listXb : RawListing :=
  { job_id := some "X".data, title := some "U".data, location := none,
    description := none, posted_at := some "1 hour ago".data,
    apply_options := [some "u2".data] }

def respX : List Char → List Char → FetchResult :=
  fun _ s => if s == "a.com".data then .ok [listXa] else .ok [listXb]

def sendX : Job → Bool := fun j => j.source == "a.com".data

def jobXa : Job :=
  { id := "X".data, title := "T".data, company := "Acme".data,
    location := "United States".data, summary := [], url := some "u1".data,
    source := "a.com".data, posted := some "1 hour ago".data }

def jobXb : Job :=
  { id := "X".data, title := "U".data, company := "Acme".data,
    location := "United States".data, summary := [], url := some "u2".data,
    source := "b.com".data, posted := some "1 hour ago".data }

-- C1 witness / C2: same shape but DISTINCT ids "A" and "B".
def listA : RawListing :=
  { job_id := some "A".data, title := some "T".data, location := none,
    description := none, posted_at := some "1 hour ago".data,
    apply_options := [some "u1".data] }

def listB : RawListing :=
  { job_id := some "B".data, title := some "U".data, location := none,
    description := none, posted_at := some "1 hour ago".data,
    apply_options := [some "u2".data] }

def respAB : List Char → List Char → FetchResult :=
  fun _ s => if s == "a.com".data then .ok [listA] else .ok [listB]

def jobA : Job :=
  { id := "A".data, title := "T".data, company := "Acme".data,
    location := "United States".data, summary := [], url := some "u1".data,
    source := "a.com".data, posted := some "1 hour ago".data }

def jobB : Job :=
  { id := "B".data, title := "U".data, company := "Acme".data,
    location := "United States".data, summary := [], url := some "u2".data,
    source := "b.com".data, posted := some "1 hour ago".data }

-- C2: the send fails for the first candidate (id "A") and would succeed
-- for the second (id "B").
def sendOnlyB : Job → Bool := fun j => j.id == "B".data

-- C3: the single fetched listing carries id "X", already in the store.
def companies3 : List Company := [⟨"Acme".data, ["a.com".data]⟩]

def resp3 : List Char → List Char → FetchResult := fun _ _ => .ok [listXa]

def job3 : Job := jobXa

-- C4: a well-formed listing and one missing its "title" key, both inside
-- the recency window and with apply options.
def listGood : RawListing :=
  { job_id := some "G".data, title := some "T".data, location := none,
    description := some "d".data, posted_at := some "2 hours ago".data,
    apply_options := [some "u".data] }

def listNoTitle : RawListing :=
  { job_id := some "B".data, title := none, location := none,
    description := some "d".data, posted_at := some "3 hours ago".data,
    apply_options := [some "u".data] }

def listNoDesc : RawListing :=
  { job_id := some "N".data, title := some "T".data, location := none,
    description := none, posted_at := some "3 hours ago".data,
    apply_options := [some "u".data] }

-- C7: the enrichment-determinism description of the spec, fed through the
-- pipeline of this program.
def desc7 : List Char :=
  "5+ years required, $90k-$120k, H1B sponsorship available".data

def list7 : RawListing :=
  { job_id := some "job7".data, title := some "Data Analyst".data,
    location := some "NY".data, description := some desc7,
    posted_at := some "3 hours ago".data,
    apply_options := [some "https://apply.example/7".data] }

def job7 : Job :=
  { id := "job7".data, title := "Data Analyst".data, company := "Acme".data,
    location := "NY".data, summary := desc7,
    url := some "https://apply.example/7".data, source := "a.com".data,
    posted := some "3 hours ago".data }

-- C9: a CSV row whose company cell needs stripping and whose url cells mix
-- pipes, protocols, empties and missing values.
def rows9 : List CsvRow :=
  [⟨" Acme ".data,
    [some "https://a.com|b.com".data, none, some "".data, some "  ".data,
     some "http://c.com".data]⟩]

def comp9 : Company :=
  ⟨"Acme".data, ["a.com".data, "b.com".data, "c.com".data]⟩

def list9 : RawListing :=
  { job_id := some "".data, title := some "T".data, location := none,
    description := none, posted_at := some "30 minutes ago".data,
    apply_options := [some "u".data] }

def job9 : Job :=
  { id := ("Acme".data ++ "-".data ++ "T".data), title := "T".data,
    company := "Acme".data, location := "United States".data, summary := [],
    url := some "u".data, source := "a.com".data,
    posted := some "30 minutes ago".data }

-- ======== Helper lemmas ======== --

theorem isPre_append {n l : List Char} (h : isPre n l = true) (l₂ : List Char) :
    isPre n (l ++ l₂) = true := by
  induction n generalizing l with
  | nil => simp [isPre]
  | cons a as ih =>
    cases l with
    | nil => simp [isPre] at h
    | cons b bs =>
      simp only [isPre, Bool.and_eq_true] at h
      simp only [List.cons_append, isPre, Bool.and_eq_true]
      exact ⟨h.1, ih h.2⟩

theorem isPre_mem {n l : List Char} (h : isPre n l = true) :
    ∀ c ∈ n, c ∈ l := by
  induction n generalizing l with
  | nil => simp
  | cons a as ih =>
    cases l with
    | nil => simp [isPre] at h
    | cons b bs =>
      simp only [isPre, Bool.and_eq_true, beq_iff_eq] at h
      intro c hc
      rcases List.mem_cons.mp hc with rfl | hc
      · exact h.1 ▸ List.mem_cons_self _ _
      · exact List.mem_cons_of_mem _ (ih h.2 c hc)

theorem containsSub_mem {n hay : List Char} (h : containsSub n hay = true) :
    ∀ c ∈ n, c ∈ hay := by
  induction hay with
  | nil =>
    cases n with
    | nil => simp
    | cons a as => simp [containsSub] at h
  | cons b bs ih =>
    simp only [containsSub, Bool.or_eq_true] at h
    rcases h with h | h
    · exact isPre_mem h
    · exact fun c hc => List.mem_cons_of_mem _ (ih h c hc)

theorem containsSub_false_of_not_mem (c : Char) {n hay : List Char}
    (hm : c ∈ n) (h : c ∉ hay) : containsSub n hay = false := by
  cases hh : containsSub n hay with
  | true => exact absurd (containsSub_mem hh c hm) h
  | false => rfl

theorem containsSub_nil (hay : List Char) : containsSub [] hay = true := by
  cases hay with
  | nil => rfl
  | cons b bs => simp [containsSub, isPre]

theorem containsSub_append_left {n h₁ : List Char}
    (h : containsSub n h₁ = true) (h₂ : List Char) :
    containsSub n (h₁ ++ h₂) = true := by
  induction h₁ with
  | nil =>
    cases n with
    | nil => simp [containsSub_nil]
    | cons a as => simp [containsSub] at h
  | cons b bs ih =>
    simp only [containsSub, Bool.or_eq_true] at h
    rw [List.cons_append]
    simp only [containsSub, Bool.or_eq_true]
    rcases h with h | h
    · refine Or.inl ?_
      have := isPre_append h h₂
      rwa [List.cons_append] at this
    · exact Or.inr (ih h)

theorem containsSub_append_right {n : List Char} (h₁ : List Char)
    {h₂ : List Char} (h : containsSub n h₂ = true) :
    containsSub n (h₁ ++ h₂) = true := by
  induction h₁ with
  | nil => simpa using h
  | cons b bs ih => simp only [List.cons_append, containsSub, Bool.or_eq_true]; exact Or.inr ih

theorem pyLower_append (a b : List Char) :
    pyLower (a ++ b) = pyLower a ++ pyLower b := List.map_append _ a b

theorem pyLower_fixed {l : List Char} (h : ∀ c ∈ l, lowerChar c = c) :
    pyLower l = l := by
  induction l with
  | nil => rfl
  | cons c t ih =>
    simp only [pyLower, List.map_cons]
    rw [h c (List.mem_cons_self _ _)]
    exact congrArg _ (ih fun x hx => h x (List.mem_cons_of_mem _ hx))

theorem lowerChar_of_code {c : Char} (h : c.toNat < 65) : lowerChar c = c := by
  unfold lowerChar
  rw [if_neg]
  omega

theorem digitsValAux_chars :
    ∀ (l : List Char) (acc n : Nat), digitsValAux acc l = some n →
      ∀ c ∈ l, isDigitCh c = true := by
  intro l
  induction l with
  | nil => simp
  | cons c rest ih =>
    intro acc n h d hd
    by_cases hc : isDigitCh c = true
    · rcases List.mem_cons.mp hd with rfl | hd
      · exact hc
      · rw [digitsValAux, if_pos hc] at h
        exact ih _ _ h d hd
    · rw [digitsValAux, if_neg hc] at h
      exact absurd h (by simp)

theorem pyInt?_codes {tok : List Char} {i : Int} (h : pyInt? tok = some i) :
    ∀ c ∈ tok, c.toNat = 43 ∨ c.toNat = 45 ∨ (48 ≤ c.toNat ∧ c.toNat ≤ 57) := by
  have digitCode : ∀ {c : Char}, isDigitCh c = true →
      48 ≤ c.toNat ∧ c.toNat ≤ 57 := by
    intro c hc
    simpa [isDigitCh, Bool.and_eq_true, decide_eq_true_eq] using hc
  have digitsCodes : ∀ {l : List Char} {n : Nat}, digitsVal l = some n →
      ∀ c ∈ l, 48 ≤ c.toNat ∧ c.toNat ≤ 57 := by
    intro l n hl c hc
    cases l with
    | nil => simp [digitsVal] at hl
    | cons a as => exact digitCode (digitsValAux_chars _ _ _ hl c hc)
  cases tok with
  | nil => simp [pyInt?] at h
  | cons c rest =>
    rw [pyInt?] at h
    by_cases h43 : (c.toNat == 43) = true
    · rw [if_pos h43] at h
      rcases hv : digitsVal rest with _ | n
      · rw [hv] at h; exact absurd h (by simp)
      · intro d hd
        rcases List.mem_cons.mp hd with rfl | hd
        · exact Or.inl (by simpa using h43)
        · exact Or.inr (Or.inr (digitsCodes hv d hd))
    · rw [if_neg h43] at h
      by_cases h45 : (c.toNat == 45) = true
      · rw [if_pos h45] at h
        rcases hv : digitsVal rest with _ | n
        · rw [hv] at h; exact absurd h (by simp)
        · intro d hd
          rcases List.mem_cons.mp hd with rfl | hd
          · exact Or.inr (Or.inl (by simpa using h45))
          · exact Or.inr (Or.inr (digitsCodes hv d hd))
      · rw [if_neg h45] at h
        rcases hv : digitsVal (c :: rest) with _ | n
        · rw [hv] at h; exact absurd h (by simp)
        · intro d hd
          exact Or.inr (Or.inr (digitsCodes hv d hd))

theorem pyInt?_ne_nil {tok : List Char} {i : Int} (h : pyInt? tok = some i) :
    tok ≠ [] := by
  intro he
  subst he
  simp [pyInt?] at h

theorem takeWhile_all_append (p : Char → Bool) :
    ∀ (ts : List Char) (x : Char) (r : List Char),
      (∀ c ∈ ts, p c = true) → p x = false →
      (ts ++ x :: r).takeWhile p = ts := by
  intro ts
  induction ts with
  | nil => intro x r _ hx; simp [List.takeWhile, hx]
  | cons t ts ih =>
    intro x r hall hx
    simp only [List.cons_append, List.takeWhile]
    rw [hall t (List.mem_cons_self _ _)]
    exact congrArg _ (ih x r (fun c hc => hall c (List.mem_cons_of_mem _ hc)) hx)

theorem firstTokenWs_append {tok : List Char} (hne : tok ≠ [])
    (hns : ∀ c ∈ tok, isPySpace c = false) {x : Char}
    (hx : isPySpace x = true) (r : List Char) :
    firstTokenWs (tok ++ x :: r) = some tok := by
  cases tok with
  | nil => exact absurd rfl hne
  | cons t ts =>
    rw [List.cons_append, firstTokenWs,
      if_neg (by simp [hns t (List.mem_cons_self _ _)]),
      takeWhile_all_append (fun c => !isPySpace c) ts x r
        (fun c hc => by simp [hns c (List.mem_cons_of_mem _ hc)])
        (by simp [hx])]

theorem deliverLoop_all_ok {send : Job → Bool} {jobs : List Job}
    (h : ∀ j ∈ jobs, send j = true) :
    deliverLoop send jobs = (jobs.map Job.id, jobs, false) := by
  induction jobs with
  | nil => rfl
  | cons j rest ih =>
    rw [deliverLoop, if_pos (h j (List.mem_cons_self _ _)),
      ih fun x hx => h x (List.mem_cons_of_mem _ hx)]
    rfl

theorem deliverLoop_fail {send : Job → Bool} (pre : List Job) (j : Job)
    (post : List Job) (hpre : ∀ x ∈ pre, send x = true)
    (hj : send j = false) :
    deliverLoop send (pre ++ j :: post) = (pre.map Job.id, pre, true) := by
  induction pre with
  | nil => simp [deliverLoop, hj]
  | cons p ps ih =>
    rw [List.cons_append, deliverLoop,
      if_pos (hpre p (List.mem_cons_self _ _)),
      ih fun x hx => hpre x (List.mem_cons_of_mem _ hx)]
    rfl

theorem deliverLoop_shape (send : Job → Bool) :
    ∀ jobs : List Job,
      (deliverLoop send jobs).1 = ((deliverLoop send jobs).2.1).map Job.id ∧
      ∀ x ∈ (deliverLoop send jobs).2.1, send x = true ∧ x ∈ jobs := by
  intro jobs
  induction jobs with
  | nil => simp [deliverLoop]
  | cons j rest ih =>
    by_cases hs : send j = true
    · rw [deliverLoop, if_pos hs]
      rcases hd : deliverLoop send rest with ⟨ids, del, ab⟩
      rw [hd] at ih
      refine ⟨by simpa using ih.1, ?_⟩
      intro x hx
      rcases List.mem_cons.mp hx with rfl | hx
      · exact ⟨hs, List.mem_cons_self _ _⟩
      · exact ⟨(ih.2 x hx).1, List.mem_cons_of_mem _ (ih.2 x hx).2⟩
    · rw [deliverLoop, if_neg hs]
      simp

theorem collectSites_not_posted {posted : List (List Char)}
    {resp : List Char → List Char → FetchResult} {company : List Char} :
    ∀ (sites : List (List Char)) (jobs : List Job),
      collectSites posted resp company sites = .ok jobs →
      ∀ j ∈ jobs, j.id ∉ posted := by
  intro sites
  induction sites with
  | nil =>
    intro jobs h
    rw [collectSites] at h
    injection h with h
    subst h
    simp
  | cons s ss ih =>
    intro jobs h j hj
    rw [collectSites] at h
    rcases hf : fetch_company_jobs company s (resp company s) with e | fetched
    · rw [hf] at h; exact absurd h (by simp)
    · rw [hf] at h
      rcases hr : collectSites posted resp company ss with e | rest
      · rw [hr] at h; exact absurd h (by simp)
      · rw [hr] at h
        injection h with h
        subst h
        rcases List.mem_append.mp hj with hj | hj
        · have := List.mem_filter.mp hj
          exact of_decide_eq_true this.2
        · exact ih rest hr j hj

theorem collectNew_not_posted {posted : List (List Char)}
    {resp : List Char → List Char → FetchResult} :
    ∀ (cs : List Company) (jobs : List Job),
      collectNew posted resp cs = .ok jobs →
      ∀ j ∈ jobs, j.id ∉ posted := by
  intro cs
  induction cs with
  | nil =>
    intro jobs h
    rw [collectNew] at h
    injection h with h
    subst h
    simp
  | cons c ccs ih =>
    intro jobs h j hj
    rw [collectNew] at h
    rcases hf : collectSites posted resp c.company c.sites with e | jc
    · rw [hf] at h; exact absurd h (by simp)
    · rw [hf] at h
      rcases hr : collectNew posted resp ccs with e | rest
      · rw [hr] at h; exact absurd h (by simp)
      · rw [hr] at h
        injection h with h
        subst h
        rcases List.mem_append.mp hj with hj | hj
        · exact collectSites_not_posted c.sites jc hf j hj
        · exact ih rest hr j hj

theorem collectSites_all_posted {posted : List (List Char)}
    {resp : List Char → List Char → FetchResult} {company : List Char} :
    ∀ sites : List (List Char),
      (∀ s ∈ sites, ∀ l, fetch_company_jobs company s (resp company s) = .ok l →
        ∀ j ∈ l, j.id ∈ posted) →
      (∃ e, collectSites posted resp company sites = .error e) ∨
        collectSites posted resp company sites = .ok [] := by
  intro sites
  induction sites with
  | nil => intro _; exact Or.inr rfl
  | cons s ss ih =>
    intro hall
    rcases hf : fetch_company_jobs company s (resp company s) with e | fetched
    · exact Or.inl ⟨e, by rw [collectSites, hf]⟩
    · have hfilter : fetched.filter (fun j => decide (j.id ∉ posted)) = [] := by
        rw [List.filter_eq_nil_iff]
        intro j hj
        simp only [decide_eq_true_eq, Decidable.not_not]
        exact hall s (List.mem_cons_self _ _) fetched hf j hj
      rcases ih (fun s' hs' => hall s' (List.mem_cons_of_mem _ hs')) with ⟨e, he⟩ | he
      · exact Or.inl ⟨e, by rw [collectSites, hf, he]⟩
      · refine Or.inr ?_
        rw [collectSites, hf, he]
        show Except.ok (fetched.filter (fun j => decide (j.id ∉ posted)) ++ []) = _
        rw [hfilter]
        rfl

theorem collectNew_all_posted {posted : List (List Char)}
    {resp : List Char → List Char → FetchResult} :
    ∀ cs : List Company,
      (∀ c ∈ cs, ∀ s ∈ c.sites, ∀ l,
        fetch_company_jobs c.company s (resp c.company s) = .ok l →
        ∀ j ∈ l, j.id ∈ posted) →
      (∃ e, collectNew posted resp cs = .error e) ∨
        collectNew posted resp cs = .ok [] := by
  intro cs
  induction cs with
  | nil => intro _; exact Or.inr rfl
  | cons c ccs ih =>
    intro hall
    rw [collectNew]
    rcases collectSites_all_posted c.sites
        (hall c (List.mem_cons_self _ _)) with ⟨e, he⟩ | he
    · rw [he]; exact Or.inl ⟨e, rfl⟩
    · rw [he]
      rcases ih (fun c' hc' => hall c' (List.mem_cons_of_mem _ hc')) with ⟨e, hr⟩ | hr
      · rw [hr]; exact Or.inl ⟨e, rfl⟩
      · rw [hr]; exact Or.inr rfl

theorem collectSites_allfail (posted : List (List Char)) (company : List Char) :
    ∀ sites : List (List Char),
      collectSites posted (fun _ _ => .fail) company sites = .ok [] := by
  intro sites
  induction sites with
  | nil => rfl
  | cons s ss ih => rw [collectSites, ih]; rfl

theorem collectNew_allfail (posted : List (List Char)) :
    ∀ cs : List Company,
      collectNew posted (fun _ _ => .fail) cs = .ok [] := by
  intro cs
  induction cs with
  | nil => rfl
  | cons c ccs ih => rw [collectNew, collectSites_allfail, ih]; rfl

theorem mkJobRec_id_ne_nil (company site : List Char) (j : RawListing)
    (t : List Char) (o : Option (List Char)) :
    (mkJobRec company site j t o).id ≠ [] := by
  have hfb : company ++ "-".data ++ t ≠ [] := by
    cases company <;> simp
  rcases hj : j.job_id with _ | v
  · simp only [mkJobRec, hj]; exact hfb
  · by_cases hv : v.isEmpty = true
    · simp only [mkJobRec, hj, if_pos hv]; exact hfb
    · simp only [mkJobRec, hj, if_neg hv]
      cases v with
      | nil => simp [List.isEmpty] at hv
      | cons a as => simp

theorem fetchLoop_ids {company site : List Char} :
    ∀ (listings : List RawListing) (l : List Job),
      fetchLoop company site listings = .ok l → ∀ j ∈ l, j.id ≠ [] := by
  intro listings
  induction listings with
  | nil =>
    intro l h
    rw [fetchLoop] at h
    injection h with h
    subst h
    simp
  | cons j rest ih =>
    intro l h job hjob
    rw [fetchLoop] at h
    by_cases hrec : (!is_within_24_hours j.posted_at) = true
    · rw [if_pos hrec] at h
      exact ih l h job hjob
    · rw [if_neg hrec] at h
      rcases ha : j.apply_options with _ | ⟨o, os⟩
      · rw [ha] at h
        exact ih l h job hjob
      · rw [ha] at h
        rcases ht : j.title with _ | t
        · rw [ht] at h; exact absurd h (by simp)
        · rw [ht] at h
          rcases hr : fetchLoop company site rest with e | tail
          · rw [hr] at h; exact absurd h (by simp)
          · rw [hr] at h
            injection h with h
            subst h
            rcases List.mem_cons.mp hjob with rfl | hjob
            · exact mkJobRec_id_ne_nil company site j t o
            · exact ih tail hr job hjob

theorem isPySpace_false_of_codes {c : Char}
    (h : c.toNat = 43 ∨ c.toNat = 45 ∨ (48 ≤ c.toNat ∧ c.toNat ≤ 57)) :
    isPySpace c = false := by
  simp only [isPySpace, Bool.or_eq_false_iff, beq_eq_false_iff_ne, ne_eq]
  omega

theorem iw24_some (s : List Char) (hne : s.isEmpty = false) :
    is_within_24_hours (some s) = iw24_core (pyLower s) := by
  simp [is_within_24_hours, hne]

theorem iw24_core_one_day (ps : List Char) :
    iw24_core ("1 day".data ++ ps) = true := by
  simp only [iw24_core]
  by_cases hm : containsSub "minute".data ("1 day".data ++ ps) = true
  · rw [if_pos hm]
  · rw [if_neg hm]
    by_cases hh : containsSub "hour".data ("1 day".data ++ ps) = true
    · rw [if_pos hh]; rfl
    · rw [if_neg hh]
      by_cases hd : containsSub "day".data ("1 day".data ++ ps) = true
      · rw [if_pos hd]; rfl
      · exact absurd (containsSub_append_left (by decide) ps) hd

theorem fetchLoop_ok_of_titles (company site : List Char) :
    ∀ js : List RawListing, (∀ j ∈ js, j.title ≠ none) →
      isOkE (fetchLoop company site js) = true := by
  intro js
  induction js with
  | nil => intro _; rfl
  | cons j rest ih =>
    intro hall
    have ihr := ih fun x hx => hall x (List.mem_cons_of_mem _ hx)
    rw [fetchLoop]
    by_cases hrec : (!is_within_24_hours j.posted_at) = true
    · rw [if_pos hrec]; exact ihr
    · rw [if_neg hrec]
      rcases ha : j.apply_options with _ | ⟨o, os⟩
      · exact ihr
      · rcases ht : j.title with _ | t
        · exact absurd ht (hall j (List.mem_cons_self _ _))
        · rcases hr : fetchLoop company site rest with e | tail
          · rw [hr] at ihr; exact absurd ihr (by simp [isOkE])
          · rfl

-- ======== Claims ======== --

/-- Claim C3: for every job id already present in the dedup store at cycle
start, a cycle whose fetched jobs all carry ids in the store performs zero
deliveries and leaves the store unchanged (the membership test on the loaded
set excludes every such job from the candidate list). -/
theorem claim_C3 : ∀ (send : Job → Bool) (posted : List (List Char))
    (companies : List Company) (resp : List Char → List Char → FetchResult),
    (∀ c ∈ companies, ∀ s ∈ c.sites, ∀ l,
      fetch_company_jobs c.company s (resp c.company s) = .ok l →
      ∀ j ∈ l, j.id ∈ posted) →
    (check_and_post_jobs send posted companies resp).committed = posted ∧
    (check_and_post_jobs send posted companies resp).delivered = [] := by
  intro send posted companies resp hall
  rcases collectNew_all_posted companies hall with ⟨e, he⟩ | he
  · simp [check_and_post_jobs, he]
  · simp [check_and_post_jobs, he]

/-- Witness for C3: a store holding "X", one company/site whose fetch
yields exactly one job with id "X"; the cycle delivers nothing and the
store is unchanged. -/
theorem claim_C3_witness :
    (check_and_post_jobs (fun _ => true) ["X".data] companies3 resp3).committed
        = ["X".data] ∧
    (check_and_post_jobs (fun _ => true) ["X".data] companies3 resp3).delivered
        = [] := by
  refine claim_C3 (fun _ => true) ["X".data] companies3 resp3 ?_
  intro c hc s hs l hl j hj
  simp only [companies3, List.mem_singleton] at hc
  subst hc
  simp only [companies3, List.mem_singleton] at hs
  subst hs
  rw [show fetch_company_jobs "Acme".data "a.com".data
      (resp3 "Acme".data "a.com".data) = .ok [job3] from by decide] at hl
  injection hl with hl
  subst hl
  rw [List.mem_singleton] at hj
  subst hj
  decide

/-- Claim C4 (corrected): `fetch_company_jobs` never raises when every
listing of the response carries a title; a listing missing its description
is not skipped — it is returned with an empty summary; but a listing
missing its title that passes the recency and apply-options guards makes
the fetch raise KeyError, discarding the whole response. -/
theorem claim_C4 :
    (∀ company site js, (∀ j ∈ js, j.title ≠ none) →
      isOkE (fetch_company_jobs company site (.ok js)) = true) ∧
    (∀ company site j t o opts, j.title = some t →
      is_within_24_hours j.posted_at = true → j.apply_options = o :: opts →
      j.description = none →
      fetch_company_jobs company site (.ok [j]) =
        .ok [mkJobRec company site j t o] ∧
      (mkJobRec company site j t o).summary = []) ∧
    (∀ company site j, j.title = none → is_within_24_hours j.posted_at = true →
      j.apply_options ≠ [] →
      fetch_company_jobs company site (.ok [j]) = .error .keyError) := by
  refine ⟨?_, ?_, ?_⟩
  · intro company site js h
    exact fetchLoop_ok_of_titles company site js h
  · intro company site j t o opts ht hrec ha hd
    constructor
    · show fetchLoop company site [j] = _
      rw [fetchLoop, if_neg (by simp [hrec]), ha, ht]
      rfl
    · simp [mkJobRec, hd]
  · intro company site j ht hrec ha
    show fetchLoop company site [j] = _
    rcases hao : j.apply_options with _ | ⟨o, os⟩
    · exact absurd hao ha
    · rw [fetchLoop, if_neg (by simp [hrec]), hao, ht]

/-- Counterexample for C4 as stated: a response with a well-formed listing
followed by one lacking the "title" key (inside the recency window, with
apply options) makes `fetch_company_jobs` raise KeyError instead of
skipping the malformed listing and returning the rest. -/
theorem claim_C4_cex :
    fetch_company_jobs "Acme".data "a.com".data (.ok [listGood, listNoTitle]) =
      .error .keyError := by decide

/-- Witness for C4: the three amended conjuncts at concrete listings. -/
theorem claim_C4_witness :
    isOkE (fetch_company_jobs "Acme".data "a.com".data (.ok [listGood]))
        = true ∧
    (fetch_company_jobs "Acme".data "a.com".data (.ok [listNoDesc]) =
        .ok [mkJobRec "Acme".data "a.com".data listNoDesc "T".data
          (some "u".data)] ∧
      (mkJobRec "Acme".data "a.com".data listNoDesc "T".data
          (some "u".data)).summary = []) ∧
    fetch_company_jobs "Acme".data "a.com".data (.ok [listNoTitle]) =
      .error .keyError :=
  ⟨claim_C4.1 _ _ _ (by decide),
   claim_C4.2.1 "Acme".data "a.com".data listNoDesc "T".data (some "u".data)
     [] (by decide) (by decide) (by decide) (by decide),
   claim_C4.2.2 "Acme".data "a.com".data listNoTitle
     (by decide) (by decide) (by decide)⟩

/-- Claim C6: for every network/HTTP failure or malformed (non-JSON)
upstream response, `fetch_company_jobs` returns the empty list rather than
raising, so a cycle all of whose fetches fail still completes normally. -/
theorem claim_C6 :
    (∀ company site, fetch_company_jobs company site .fail = .ok []) ∧
    (∀ (send : Job → Bool) (posted : List (List Char))
        (companies : List Company),
      check_and_post_jobs send posted companies (fun _ _ => .fail) =
        ⟨posted, [], false⟩) := by
  refine ⟨fun _ _ => rfl, ?_⟩
  intro send posted companies
  simp [check_and_post_jobs, collectNew_allfail]

/-- Claim C8: the rendered notification message embeds exactly the first
700 characters of the record's summary (a prefix of length at most 700),
the send disables link-preview expansion, and rendering leaves the job
record unmodified. -/
theorem claim_C8 : ∀ j : Job,
    (post_job j).1.text = msgBefore j ++ j.summary.take 700 ++ msgAfter j ∧
    (j.summary.take 700).length ≤ 700 ∧
    j.summary.take 700 <+: j.summary ∧
    (post_job j).1.disable_web_page_preview = true ∧
    (post_job j).2 = j := by
  intro j
  refine ⟨?_, ?_, ?_, rfl, rfl⟩
  · simp [post_job, renderMsg, msgBefore, msgAfter, List.append_assoc]
  · rw [List.length_take]
    exact Nat.min_le_left _ _
  · exact ⟨j.summary.drop 700, List.take_append_drop 700 _⟩

/-- Claim C9: every loaded company has a non-empty (stripped) name, and
every job record emitted by `fetch_company_jobs` has a non-empty id (the
upstream job_id when truthy, else the "company-title" fallback, which
always contains the dash). -/
theorem claim_C9 :
    (∀ rows c, c ∈ load_companies rows → c.company ≠ []) ∧
    (∀ company site res l, fetch_company_jobs company site res = .ok l →
      ∀ j ∈ l, j.id ≠ []) := by
  constructor
  · intro rows c hc
    rcases List.mem_filterMap.mp hc with ⟨row, _, hrow⟩
    dsimp only at hrow
    by_cases hemp : (pyStrip row.name).isEmpty = true
    · rw [if_pos hemp] at hrow
      exact absurd hrow (by simp)
    · rw [if_neg hemp] at hrow
      by_cases hsites : (row.urls.flatMap sitesOfCell).isEmpty = true
      · rw [if_pos hsites] at hrow
        exact absurd hrow (by simp)
      · rw [if_neg hsites] at hrow
        injection hrow with hrow
        subst hrow
        intro hnil
        change pyStrip row.name = [] at hnil
        rw [hnil] at hemp
        exact hemp rfl
  · intro company site res l h j hj
    cases res with
    | fail =>
      rw [fetch_company_jobs] at h
      injection h with h
      subst h
      simp at hj
    | ok listings => exact fetchLoop_ids listings l h j hj

/-- Witness for C9: the company loaded from a row with padded name and
mixed url cells has a non-empty name, and a job built through the
"company-title" fallback (empty upstream job_id) has a non-empty id. -/
theorem claim_C9_witness : comp9.company ≠ [] ∧ job9.id ≠ [] :=
  ⟨claim_C9.1 rows9 comp9 (by decide),
   claim_C9.2 "Acme".data "a.com".data (.ok [list9]) [job9] (by decide)
     job9 (by decide)⟩

/-- Claim C10: loading the dedup store from a missing file yields the
empty set; from an existing file it yields exactly the set of the file's
lines with surrounding whitespace stripped (membership-wise, and free of
duplicates as a set is). -/
theorem claim_C10 :
    load_posted_jobs none = [] ∧
    (∀ content x, x ∈ load_posted_jobs (some content) ↔
      x ∈ (pyLines content).map pyStrip) ∧
    (∀ content, (load_posted_jobs (some content)).Nodup) := by
  refine ⟨rfl, ?_, ?_⟩
  · intro content x
    exact List.mem_dedup
  · intro content
    exact List.nodup_dedup _

/-- Claim C1 (corrected): commits happen only for candidates whose send
succeeded, in order (the store afterwards is the loaded set plus the ids of
the delivered candidates); and when the candidate ids of the cycle are
pairwise distinct, a candidate whose send failed has its id absent from the
store after the cycle.  (With duplicate ids in one cycle — possible, since
the loaded set is not updated during collection — an earlier successful
duplicate can leave the id present even though a later send failed.) -/
theorem claim_C1 : ∀ (send : Job → Bool) (posted : List (List Char))
    (companies : List Company) (resp : List Char → List Char → FetchResult)
    (jobs : List Job), collectNew posted resp companies = .ok jobs →
    ((check_and_post_jobs send posted companies resp).committed =
        posted ++
          ((check_and_post_jobs send posted companies resp).delivered).map
            Job.id ∧
      ∀ j ∈ (check_and_post_jobs send posted companies resp).delivered,
        send j = true) ∧
    ((jobs.map Job.id).Nodup →
      ∀ j ∈ jobs, send j = false →
        j.id ∉ (check_and_post_jobs send posted companies resp).committed) := by
  intro send posted companies resp jobs hc
  by_cases hemp : jobs.isEmpty = true
  · have hjobs : jobs = [] := by
      cases jobs with
      | nil => rfl
      | cons a as => simp [List.isEmpty] at hemp
    subst hjobs
    refine ⟨⟨by simp [check_and_post_jobs, hc], ?_⟩, ?_⟩
    · intro j hj
      simp [check_and_post_jobs, hc] at hj
    · intro _ j hj
      simp at hj
  · rcases hd : deliverLoop send jobs with ⟨ids, del, ab⟩
    have hshape := deliverLoop_shape send jobs
    rw [hd] at hshape
    dsimp only at hshape
    have hout : check_and_post_jobs send posted companies resp =
        ⟨posted ++ ids, del, ab⟩ := by
      simp [check_and_post_jobs, hc, hemp, hd]
    rw [hout]
    refine ⟨⟨by simp [hshape.1], fun j hj => (hshape.2 j hj).1⟩, ?_⟩
    intro hnd j hj hsend hmem
    rcases List.mem_append.mp hmem with hmem | hmem
    · exact collectNew_not_posted companies jobs hc j hj hmem
    · rw [hshape.1] at hmem
      rcases List.mem_map.mp hmem with ⟨j2, hj2, hid⟩
      have heq : j2 = j :=
        List.inj_on_of_nodup_map hnd (hshape.2 j2 hj2).2 hj hid
      have hs1 := (hshape.2 j2 hj2).1
      rw [heq, hsend] at hs1
      exact Bool.false_ne_true hs1

/-- Counterexample for C1 as stated: two sites return listings with the
SAME upstream id "X"; the send succeeds for the first candidate and fails
for the second, yet "X" is in the store after the cycle — the claim's
"if the send fails, the id is absent from the store" is violated. -/
theorem claim_C1_cex :
    collectNew [] respX companiesX = .ok [jobXa, jobXb] ∧
    sendX jobXb = false ∧
    "X".data ∈ (check_and_post_jobs sendX [] companiesX respX).committed := by
  decide

/-- Witness for C1: distinct candidate ids "A","B"; the send fails for the
"B" candidate and its id is absent from the store; the store equals the
loaded set plus the delivered ids. -/
theorem claim_C1_witness :
    (check_and_post_jobs sendX [] companiesX respAB).committed =
      [] ++ ((check_and_post_jobs sendX [] companiesX respAB).delivered).map
        Job.id ∧
    "B".data ∉ (check_and_post_jobs sendX [] companiesX respAB).committed :=
  ⟨(claim_C1 sendX [] companiesX respAB [jobA, jobB] (by decide)).1.1,
   (claim_C1 sendX [] companiesX respAB [jobA, jobB] (by decide)).2
     (by decide) jobB (by decide) (by decide)⟩

/-- Claim C2 (corrected): a delivery failure aborts the cycle at the failing
candidate: the candidates before it are delivered and committed, the failing
candidate and every later one are neither delivered nor committed in that
cycle (their ids stay out of the store, so they are re-offered next cycle). -/
theorem claim_C2 : ∀ (send : Job → Bool) (posted : List (List Char))
    (companies : List Company) (resp : List Char → List Char → FetchResult)
    (pre : List Job) (j : Job) (post2 : List Job),
    collectNew posted resp companies = .ok (pre ++ j :: post2) →
    (∀ x ∈ pre, send x = true) → send j = false →
    check_and_post_jobs send posted companies resp =
      ⟨posted ++ pre.map Job.id, pre, true⟩ := by
  intro send posted companies resp pre j post2 hc hpre hj
  have hne : (pre ++ j :: post2).isEmpty = false := by
    cases pre <;> rfl
  simp only [check_and_post_jobs, hc, hne]
  rw [deliverLoop_fail pre j post2 hpre hj]
  rfl

/-- Counterexample for C2 as stated: two candidates with ids "A","B"; the
send fails for the first and would succeed for the second, yet nothing is
delivered (the cycle aborts instead of continuing to the next candidate). -/
theorem claim_C2_cex :
    collectNew [] respAB companiesX = .ok [jobA, jobB] ∧
    sendOnlyB jobB = true ∧
    check_and_post_jobs sendOnlyB [] companiesX respAB = ⟨[], [], true⟩ := by
  decide

/-- Witness for C2: the amended statement at the concrete failing cycle. -/
theorem claim_C2_witness :
    check_and_post_jobs sendOnlyB [] companiesX respAB =
      ⟨[] ++ ([] : List Job).map Job.id, [], true⟩ :=
  claim_C2 sendOnlyB [] companiesX respAB [] jobA [jobB]
    (by decide) (by decide) (by decide)

/-- Claim C5: the recency predicate returns true for every phrase whose
lower-casing contains "minute"; for a numeric token followed by " hours ..."
it returns true exactly when the number is at most 24 (inclusive boundary);
it returns true for every phrase starting with "1 day"; false for "N days"
phrases with N at least 2; false for missing or empty input; and false for
any phrase mentioning none of "minute"/"hour"/"day". -/
theorem claim_C5 :
    (∀ s : List Char, containsSub "minute".data (pyLower s) = true →
      is_within_24_hours (some s) = true) ∧
    (∀ (tok : List Char) (i : Int), pyInt? tok = some i →
      is_within_24_hours (some (tok ++ " hours ago".data)) =
        decide (i ≤ 24)) ∧
    (∀ s : List Char,
      is_within_24_hours (some ("1 day".data ++ s)) = true) ∧
    (∀ (tok : List Char) (i : Int), pyInt? tok = some i → 2 ≤ i →
      is_within_24_hours (some (tok ++ " days ago".data)) = false) ∧
    (is_within_24_hours none = false ∧
      is_within_24_hours (some []) = false) ∧
    (∀ s : List Char, containsSub "minute".data (pyLower s) = false →
      containsSub "hour".data (pyLower s) = false →
      containsSub "day".data (pyLower s) = false →
      is_within_24_hours (some s) = false) := by
  refine ⟨?_, ?_, ?_, ?_, ⟨rfl, rfl⟩, ?_⟩
  · -- phrases containing "minute"
    intro s hm
    cases s with
    | nil => exact absurd hm (by decide)
    | cons c cs =>
      rw [iw24_some (c :: cs) rfl]
      simp only [iw24_core]
      rw [if_pos hm]
  · -- "N hours ..." with the 24-inclusive boundary
    intro tok i hi
    have htok_ne : tok ≠ [] := pyInt?_ne_nil hi
    have hcodes := pyInt?_codes hi
    have hlow_tok : ∀ c ∈ tok, lowerChar c = c := by
      intro c hc
      rcases hcodes c hc with h | h | h
      · exact lowerChar_of_code (by omega)
      · exact lowerChar_of_code (by omega)
      · exact lowerChar_of_code (by omega)
    have hne2 : (tok ++ " hours ago".data).isEmpty = false := by
      cases tok with
      | nil => exact absurd rfl htok_ne
      | cons a as => rfl
    have hlower : pyLower (tok ++ " hours ago".data) =
        tok ++ " hours ago".data := by
      rw [pyLower_append, pyLower_fixed hlow_tok,
        show pyLower " hours ago".data = " hours ago".data from by decide]
    have hm109 : ('m').toNat = 109 := by decide
    have hmnot : containsSub "minute".data (tok ++ " hours ago".data)
        = false := by
      apply containsSub_false_of_not_mem 'm' (by decide)
      intro hmem
      rcases List.mem_append.mp hmem with hmem | hmem
      · rcases hcodes _ hmem with h | h | h <;> omega
      · exact absurd hmem (by decide)
    have hhour : containsSub "hour".data (tok ++ " hours ago".data) = true :=
      containsSub_append_right tok (by decide)
    have hsp : ∀ c ∈ tok, isPySpace c = false := fun c hc =>
      isPySpace_false_of_codes (hcodes c hc)
    have htk : firstTokenWs (tok ++ " hours ago".data) = some tok := by
      rw [show (" hours ago".data : List Char) = ' ' :: "hours ago".data
        from by decide]
      exact firstTokenWs_append htok_ne hsp (by decide) _
    rw [iw24_some _ hne2, hlower]
    simp only [iw24_core]
    rw [if_neg (by simp [hmnot]), if_pos hhour, htk]
    dsimp only
    rw [hi]
  · -- phrases starting with "1 day"
    intro s
    rw [iw24_some ("1 day".data ++ s) rfl, pyLower_append,
      show pyLower "1 day".data = "1 day".data from by decide]
    exact iw24_core_one_day (pyLower s)
  · -- "N days ..." with N at least 2
    intro tok i hi h2
    have htok_ne : tok ≠ [] := pyInt?_ne_nil hi
    have hcodes := pyInt?_codes hi
    have hlow_tok : ∀ c ∈ tok, lowerChar c = c := by
      intro c hc
      rcases hcodes c hc with h | h | h
      · exact lowerChar_of_code (by omega)
      · exact lowerChar_of_code (by omega)
      · exact lowerChar_of_code (by omega)
    have hne2 : (tok ++ " days ago".data).isEmpty = false := by
      cases tok with
      | nil => exact absurd rfl htok_ne
      | cons a as => rfl
    have hlower : pyLower (tok ++ " days ago".data) =
        tok ++ " days ago".data := by
      rw [pyLower_append, pyLower_fixed hlow_tok,
        show pyLower " days ago".data = " days ago".data from by decide]
    have hm109 : ('m').toNat = 109 := by decide
    have hh104 : ('h').toNat = 104 := by decide
    have hmnot : containsSub "minute".data (tok ++ " days ago".data)
        = false := by
      apply containsSub_false_of_not_mem 'm' (by decide)
      intro hmem
      rcases List.mem_append.mp hmem with hmem | hmem
      · rcases hcodes _ hmem with h | h | h <;> omega
      · exact absurd hmem (by decide)
    have hhnot : containsSub "hour".data (tok ++ " days ago".data)
        = false := by
      apply containsSub_false_of_not_mem 'h' (by decide)
      intro hmem
      rcases List.mem_append.mp hmem with hmem | hmem
      · rcases hcodes _ hmem with h | h | h <;> omega
      · exact absurd hmem (by decide)
    have hday : containsSub "day".data (tok ++ " days ago".data) = true :=
      containsSub_append_right tok (by decide)
    have hprefalse : isPre "1 day".data (tok ++ " days ago".data) = false := by
      cases tok with
      | nil => exact absurd rfl htok_ne
      | cons t ts =>
        by_cases h1 : t = '1'
        · subst h1
          cases ts with
          | nil =>
            have h1v : pyInt? ['1'] = some 1 := by decide
            rw [h1v] at hi
            injection hi with hi
            omega
          | cons u us =>
            have hu := hcodes u (by simp)
            have hne32 : (' ' == u) = false := by
              rw [beq_eq_false_iff_ne]
              intro he
              have hc32 := congrArg Char.toNat he
              have hsp32 : (' ').toNat = 32 := by decide
              omega
            rw [show ("1 day".data : List Char) = '1' :: ' ' :: "day".data
              from by decide]
            show isPre _ ('1' :: u :: (us ++ " days ago".data)) = false
            simp only [isPre, hne32, Bool.false_and, Bool.and_false]
        · have hne1 : ('1' == t) = false := by
            rw [beq_eq_false_iff_ne]
            exact fun he => h1 he.symm
          rw [show ("1 day".data : List Char) = '1' :: ' ' :: "day".data
            from by decide]
          show isPre _ (t :: (ts ++ " days ago".data)) = false
          simp only [isPre, hne1, Bool.false_and]
    rw [iw24_some _ hne2, hlower]
    simp only [iw24_core]
    rw [if_neg (by simp [hmnot]), if_neg (by simp [hhnot]), if_pos hday,
      hprefalse]
  · -- phrases mentioning none of the keywords
    intro s hm hh hd
    cases s with
    | nil => rfl
    | cons c cs =>
      rw [iw24_some (c :: cs) rfl]
      simp only [iw24_core]
      rw [if_neg (by simp [hm]), if_neg (by simp [hh]), if_neg (by simp [hd])]

/-- Witness for C5: all quantified conjuncts instantiated at concrete
phrases, with the boundary cases 24 (accepted) and 25 (rejected). -/
theorem claim_C5_witness :
    is_within_24_hours (some "45 Minutes ago".data) = true ∧
    is_within_24_hours (some ("24".data ++ " hours ago".data)) = true ∧
    is_within_24_hours (some ("25".data ++ " hours ago".data)) = false ∧
    is_within_24_hours (some ("1 day".data ++ " ago".data)) = true ∧
    is_within_24_hours (some ("2".data ++ " days ago".data)) = false ∧
    is_within_24_hours (some "just now".data) = false :=
  ⟨claim_C5.1 "45 Minutes ago".data (by decide),
   (claim_C5.2.1 "24".data 24 (by decide)).trans (by decide),
   (claim_C5.2.1 "25".data 25 (by decide)).trans (by decide),
   claim_C5.2.2.1 " ago".data,
   claim_C5.2.2.2.1 "2".data 2 (by decide) (by decide),
   claim_C5.2.2.2.2.2 "just now".data (by decide) (by decide) (by decide)⟩

/-- Counterexample for C7 as stated: for the spec's enrichment input, the
pipeline's delivered record is exactly the eight-key dict of bot.py lines
153-162; it has no "experienceEstimate", "salaryEstimate" or "visaSignal"
entry, so no enriched field is attached before delivery. -/
theorem claim_C7_cex :
    fetch_company_jobs "Acme".data "a.com".data (.ok [list7]) = .ok [job7] ∧
    dictGet "experienceEstimate".data (jobDict job7) = none ∧
    dictGet "salaryEstimate".data (jobDict job7) = none ∧
    dictGet "visaSignal".data (jobDict job7) = none := by
  decide

/-- Claim C7 (corrected): this program performs no enrichment: the record
built for the description "5+ years required, $90k-$120k, H1B sponsorship
available" carries the description verbatim as its summary — its dict has
exactly the keys id/title/company/location/summary/url/source/posted — and
the phrases "5+ years", "$90k-$120k" and "H1B sponsorship" reach the
rendered message only as raw summary text. -/
theorem claim_C7 :
    fetch_company_jobs "Acme".data "a.com".data (.ok [list7]) = .ok [job7] ∧
    job7.summary = desc7 ∧
    (jobDict job7).map Prod.fst =
      ["id".data, "title".data, "company".data, "location".data,
       "summary".data, "url".data, "source".data, "posted".data] ∧
    containsSub "5+ years".data (renderMsg job7) = true ∧
    containsSub "$90k-$120k".data (renderMsg job7) = true ∧
    containsSub "H1B sponsorship".data (renderMsg job7) = true := by
  decide

end Bot
